import Mathlib

/-
Shallow embedding of `src/components/victory-chart/helper-methods.js` from the
victory-chart repository, together with proofs about the claims of its
specification.  Numbers are modelled as rationals, JavaScript heterogeneous
values by the inductive type `JSVal`, and the module's external collaborators
(the `Axis`, `Data` and `Domain` helpers, lodash, and victory-core's
`Collection`) either as explicit function parameters or as small definitions
modelled from the specification, each marked as such in its doc comment.
-/

set_option maxHeartbeats 1000000

/-- Axis keys: the two fixed per-axis identifiers used by the module. -/
inductive AxisKey where
  | independent
  | dependent
deriving DecidableEq, Repr

/- ----------------------------------------------------------------------
   DomainResolver (getDomain, lines 97-112 of helper-methods.js)
   ---------------------------------------------------------------------- -/

/-- Embedding of the reduce on lines 102-105: concatenate every
child-reported domain (a list of endpoints), skipping children that report
none (`childDomain ? prev.concat(childDomain) : prev`). -/
def childDomains (reports : List (Option (List ℚ))) : List ℚ :=
  reports.foldl (fun prev r => match r with | some d => prev ++ d | none => prev) []

/-- Embedding of a spread `Math.min(...l)` applied to a nonempty list; the
empty case (JS Infinity) is unreachable in `getDomain` because it is guarded
by the emptiness test on line 106. -/
def listMin : List ℚ → ℚ
  | [] => 0
  | x :: xs => xs.foldl min x

/-- Embedding of a spread `Math.max(...l)` applied to a nonempty list. -/
def listMax : List ℚ → ℚ
  | [] => 0
  | x :: xs => xs.foldl max x

/-- The shape of the `domain` prop on line 99: either a single pair shared by
both axes (`Array.isArray(props.domain)`) or a per-axis-key record. -/
inductive DomainProp where
  | arr (d : List ℚ)
  | byKey (indep dep : Option (List ℚ))
deriving DecidableEq

/-- Embedding of lines 98-108 of `getDomain`: the base domain before the
`Domain.padDomain` and `Domain.orientDomain` collaborator calls.  The
`domain` prop is used verbatim when it is an array or has an entry for this
axis; otherwise the base domain is `[0, 1]` when no child reports endpoints,
else the min/max over all reported endpoints. -/
def getDomainBase (domain : Option DomainProp) (axis : AxisKey)
    (reports : List (Option (List ℚ))) : List ℚ :=
  let fromChildren :=
    let cd := childDomains reports
    if cd = [] then [0, 1] else [listMin cd, listMax cd]
  match domain with
  | some (.arr d) => d
  | some (.byKey i d) =>
    match (match axis with | .independent => i | .dependent => d) with
    | some d0 => d0
    | none => fromChildren
  | none => fromChildren

/-- Embedding of lines 109-111: `getDomain` pads the base domain and then
orients it.  `Domain.padDomain` and `Domain.orientDomain` are repository
helpers outside src/, treated as the padding and orientation collaborators of
the spec and passed in as function parameters (with props and axis already
applied). -/
def getDomain (pad orient : List ℚ → List ℚ) (domain : Option DomainProp)
    (axis : AxisKey) (reports : List (Option (List ℚ))) : List ℚ :=
  orient (pad (getDomainBase domain axis reports))

lemma foldl_min_le_init (a : ℚ) (l : List ℚ) : l.foldl min a ≤ a := by
  induction l generalizing a with
  | nil => exact le_refl a
  | cons x xs ih => exact le_trans (ih (min a x)) (min_le_left a x)

lemma foldl_min_le_mem (a : ℚ) {l : List ℚ} {e : ℚ} (he : e ∈ l) :
    l.foldl min a ≤ e := by
  induction l generalizing a with
  | nil => cases he
  | cons x xs ih =>
    rcases List.mem_cons.mp he with h | h
    · subst h
      exact le_trans (foldl_min_le_init (min a e) xs) (min_le_right a e)
    · exact ih (min a x) h

lemma foldl_min_mem (a : ℚ) (l : List ℚ) : l.foldl min a = a ∨ l.foldl min a ∈ l := by
  induction l generalizing a with
  | nil => exact Or.inl rfl
  | cons x xs ih =>
    rcases ih (min a x) with h | h
    · rcases min_choice a x with h0 | h0
      · exact Or.inl (by rw [List.foldl_cons, h, h0])
      · exact Or.inr (by rw [List.foldl_cons, h, h0]; exact List.mem_cons_self x xs)
    · exact Or.inr (List.mem_cons_of_mem x h)

lemma le_foldl_max_init (a : ℚ) (l : List ℚ) : a ≤ l.foldl max a := by
  induction l generalizing a with
  | nil => exact le_refl a
  | cons x xs ih => exact le_trans (le_max_left a x) (ih (max a x))

lemma le_foldl_max_mem (a : ℚ) {l : List ℚ} {e : ℚ} (he : e ∈ l) :
    e ≤ l.foldl max a := by
  induction l generalizing a with
  | nil => cases he
  | cons x xs ih =>
    rcases List.mem_cons.mp he with h | h
    · subst h
      exact le_trans (le_max_right a e) (le_foldl_max_init (max a e) xs)
    · exact ih (max a x) h

lemma foldl_max_mem (a : ℚ) (l : List ℚ) : l.foldl max a = a ∨ l.foldl max a ∈ l := by
  induction l generalizing a with
  | nil => exact Or.inl rfl
  | cons x xs ih =>
    rcases ih (max a x) with h | h
    · rcases max_choice a x with h0 | h0
      · exact Or.inl (by rw [List.foldl_cons, h, h0])
      · exact Or.inr (by rw [List.foldl_cons, h, h0]; exact List.mem_cons_self x xs)
    · exact Or.inr (List.mem_cons_of_mem x h)

lemma listMin_le {l : List ℚ} {e : ℚ} (he : e ∈ l) : listMin l ≤ e := by
  cases l with
  | nil => cases he
  | cons x xs =>
    rcases List.mem_cons.mp he with h | h
    · subst h; exact foldl_min_le_init e xs
    · exact foldl_min_le_mem x h

lemma le_listMax {l : List ℚ} {e : ℚ} (he : e ∈ l) : e ≤ listMax l := by
  cases l with
  | nil => cases he
  | cons x xs =>
    rcases List.mem_cons.mp he with h | h
    · subst h; exact le_foldl_max_init e xs
    · exact le_foldl_max_mem x h

lemma listMin_mem {l : List ℚ} (h : l ≠ []) : listMin l ∈ l := by
  cases l with
  | nil => exact absurd rfl h
  | cons x xs =>
    rcases foldl_min_mem x xs with h0 | h0
    · show List.foldl min x xs ∈ x :: xs
      rw [h0]; exact List.mem_cons_self x xs
    · exact List.mem_cons_of_mem x h0

lemma listMax_mem {l : List ℚ} (h : l ≠ []) : listMax l ∈ l := by
  cases l with
  | nil => exact absurd rfl h
  | cons x xs =>
    rcases foldl_max_mem x xs with h0 | h0
    · show List.foldl max x xs ∈ x :: xs
      rw [h0]; exact List.mem_cons_self x xs
    · exact List.mem_cons_of_mem x h0

/-- C1: with no domain override, the base domain `getDomain` computes (before
padding and orientation) is the min/max pair over the concatenation of all
child-reported endpoints; when no child reports a domain it is exactly
`[0, 1]`; and for one child reporting `[2, 8]` and another `[-1, 5]` it is
`[-1, 8]`. -/
theorem claimC1_getDomain_base_domain (axis : AxisKey)
    (reports : List (Option (List ℚ))) :
    (childDomains reports = [] → getDomainBase none axis reports = [0, 1]) ∧
    (childDomains reports ≠ [] →
      ∃ a b, getDomainBase none axis reports = [a, b] ∧
        a ∈ childDomains reports ∧ b ∈ childDomains reports ∧
        ∀ e ∈ childDomains reports, a ≤ e ∧ e ≤ b) ∧
    getDomainBase none AxisKey.independent [some [2, 8], some [-1, 5]] = [-1, 8] := by
  refine ⟨?_, ?_, ?_⟩
  · intro h
    simp [getDomainBase, h]
  · intro h
    refine ⟨listMin (childDomains reports), listMax (childDomains reports), ?_,
      listMin_mem h, listMax_mem h, fun e he => ⟨listMin_le he, le_listMax he⟩⟩
    simp [getDomainBase, h]
  · decide

/-- Witness for C1 at concrete inputs: no reports give `[0, 1]`, and the two
reports `[2, 8]`, `[-1, 5]` give a min/max pair. -/
theorem claimC1_getDomain_base_domain_witness :
    getDomainBase none AxisKey.independent [] = [0, 1] ∧
    ∃ a b, getDomainBase none AxisKey.independent [some [2, 8], some [-1, 5]] = [a, b] ∧
      a ∈ childDomains [some [2, 8], some [-1, 5]] ∧
      b ∈ childDomains [some [2, 8], some [-1, 5]] ∧
      ∀ e ∈ childDomains [some [2, 8], some [-1, 5]], a ≤ e ∧ e ≤ b :=
  ⟨(claimC1_getDomain_base_domain AxisKey.independent []).1 rfl,
   (claimC1_getDomain_base_domain AxisKey.independent
      [some [2, 8], some [-1, 5]]).2.1 (by decide)⟩

/- ----------------------------------------------------------------------
   StringRegistry (createStringMap, lines 181-200 of helper-methods.js)
   ---------------------------------------------------------------------- -/

/-- Embedding of the two reduces on lines 185-192: concatenate the candidate
strings each child contributes (skipping children contributing none). -/
def flattenOpt (xs : List (Option (List String))) : List String :=
  xs.foldl (fun prev o => match o with | some l => prev ++ l | none => prev) []

/-- Embedding of lodash uniq with an explicit seen accumulator: keep the
first occurrence of every string, in order. -/
def uniqAux (seen : List String) : List String → List String
  | [] => []
  | x :: xs => if x ∈ seen then uniqAux seen xs else x :: uniqAux (x :: seen) xs

/-- Deduplication preserving first occurrences, the behaviour of lodash
uniq on line 193. -/
def uniqF (l : List String) : List String :=
  uniqAux [] l

/-- Embedding of the reduce on lines 196-199: assign the code index + 1 to
the string at each index, in list order (a JS object keyed by distinct
strings, modelled as an association list in insertion order). -/
def enumFrom (n : Nat) : List (String) → List (String × ℚ)
  | [] => []
  | s :: ss => (s, ((n + 1 : ℕ) : ℚ)) :: enumFrom (n + 1) ss

/-- Embedding of `createStringMap`.  The three candidate-string sources are
the external data-string extraction collaborators of the spec
(`Data.getStringsFromAxes` applied to the axis component, and the per-child
`Data.getStringsFromCategories` / `Data.getStringsFromData` results), passed
in as already-extracted lists. -/
def createStringMap (tickStrings : List String)
    (categoryStrings dataStrings : List (Option (List String))) :
    Option (List (String × ℚ)) :=
  if uniqF (tickStrings ++ flattenOpt categoryStrings ++ flattenOpt dataStrings) = []
  then none
  else some (enumFrom 0
    (uniqF (tickStrings ++ flattenOpt categoryStrings ++ flattenOpt dataStrings)))

lemma uniqAux_mem (seen : List String) (l : List String) (s : String) :
    s ∈ uniqAux seen l ↔ s ∈ l ∧ s ∉ seen := by
  induction l generalizing seen with
  | nil => simp [uniqAux]
  | cons x xs ih =>
    by_cases hx : x ∈ seen
    · rw [uniqAux, if_pos hx, ih]
      constructor
      · exact fun ⟨h1, h2⟩ => ⟨List.mem_cons_of_mem x h1, h2⟩
      · rintro ⟨h1, h2⟩
        rcases List.mem_cons.mp h1 with h | h
        · exact absurd (h ▸ hx) h2
        · exact ⟨h, h2⟩
    · rw [uniqAux, if_neg hx]
      constructor
      · intro h
        rcases List.mem_cons.mp h with h | h
        · exact ⟨h ▸ List.mem_cons_self x xs, h ▸ hx⟩
        · rcases (ih (x :: seen)).mp h with ⟨h1, h2⟩
          exact ⟨List.mem_cons_of_mem x h1,
            fun hs => h2 (List.mem_cons_of_mem x hs)⟩
      · rintro ⟨h1, h2⟩
        rcases List.mem_cons.mp h1 with h | h
        · exact h ▸ List.mem_cons_self x _
        · by_cases hsx : s = x
          · exact hsx ▸ List.mem_cons_self x _
          · exact List.mem_cons_of_mem x ((ih (x :: seen)).mpr
              ⟨h, fun hs => (List.mem_cons.mp hs).elim hsx h2⟩)

lemma uniqAux_nodup (seen : List String) (l : List String) :
    (uniqAux seen l).Nodup := by
  induction l generalizing seen with
  | nil => exact List.nodup_nil
  | cons x xs ih =>
    by_cases hx : x ∈ seen
    · rw [uniqAux, if_pos hx]; exact ih seen
    · rw [uniqAux, if_neg hx]
      refine List.nodup_cons.mpr ⟨fun hmem => ?_, ih (x :: seen)⟩
      exact ((uniqAux_mem (x :: seen) xs x).mp hmem).2 (List.mem_cons_self x seen)

lemma uniqF_mem (l : List String) (s : String) : s ∈ uniqF l ↔ s ∈ l := by
  rw [uniqF, uniqAux_mem]
  simp

lemma uniqF_nodup (l : List String) : (uniqF l).Nodup :=
  uniqAux_nodup [] l

lemma uniqF_eq_nil_iff (l : List String) : uniqF l = [] ↔ l = [] := by
  cases l with
  | nil => simp [uniqF, uniqAux]
  | cons x xs =>
    simp only [uniqF, uniqAux, List.not_mem_nil, if_neg (List.not_mem_nil x)]
    constructor
    · intro h; cases h
    · intro h; cases h

/-- Elements kept by uniqAux keep their relative first-occurrence order: the
result is pairwise increasing in indexOf over the scanned list. -/
lemma uniqAux_pairwise_indexOf (seen : List String) (l : List String) :
    List.Pairwise (fun a b => l.indexOf a < l.indexOf b) (uniqAux seen l) := by
  induction l generalizing seen with
  | nil => exact List.Pairwise.nil
  | cons x xs ih =>
    have shift : ∀ s ∈ uniqAux (x :: seen) xs, s ≠ x ∧ s ∈ xs := by
      intro s hs
      rcases (uniqAux_mem (x :: seen) xs s).mp hs with ⟨h1, h2⟩
      exact ⟨fun h => h2 (h ▸ List.mem_cons_self x seen), h1⟩
    by_cases hx : x ∈ seen
    · rw [uniqAux, if_pos hx]
      have hne : ∀ s ∈ uniqAux seen xs, s ≠ x ∧ s ∈ xs := by
        intro s hs
        rcases (uniqAux_mem seen xs s).mp hs with ⟨h1, h2⟩
        exact ⟨fun h => h2 (h ▸ hx), h1⟩
      refine List.Pairwise.imp_of_mem ?_ (ih seen)
      intro a b ha hb hlt
      rw [List.indexOf_cons_ne xs (Ne.symm (hne a ha).1),
        List.indexOf_cons_ne xs (Ne.symm (hne b hb).1)]
      exact Nat.succ_lt_succ hlt
    · rw [uniqAux, if_neg hx]
      refine List.Pairwise.cons ?_ ?_
      · intro b hb
        rw [List.indexOf_cons_self, List.indexOf_cons_ne xs (Ne.symm (shift b hb).1)]
        exact Nat.succ_pos _
      · refine List.Pairwise.imp_of_mem ?_ (ih (x :: seen))
        intro a b ha hb hlt
        rw [List.indexOf_cons_ne xs (Ne.symm (shift a ha).1),
          List.indexOf_cons_ne xs (Ne.symm (shift b hb).1)]
        exact Nat.succ_lt_succ hlt

lemma uniqF_pairwise_indexOf (l : List String) :
    List.Pairwise (fun a b => l.indexOf a < l.indexOf b) (uniqF l) :=
  uniqAux_pairwise_indexOf [] l

lemma enumFrom_map_fst (n : Nat) (l : List String) :
    (enumFrom n l).map Prod.fst = l := by
  induction l generalizing n with
  | nil => rfl
  | cons s ss ih => simp [enumFrom, ih]

lemma enumFrom_map_snd (n : Nat) (l : List String) :
    (enumFrom n l).map Prod.snd =
      (List.range l.length).map (fun i => ((n + i + 1 : ℕ) : ℚ)) := by
  induction l generalizing n with
  | nil => rfl
  | cons s ss ih =>
    simp only [enumFrom, List.map_cons, List.length_cons, List.range_succ_eq_map,
      List.map_map, ih]
    congr 1
    apply List.map_congr_left
    intro i _
    simp only [Function.comp_apply]
    congr 1
    omega

lemma enumFrom_length (n : Nat) (l : List String) :
    (enumFrom n l).length = l.length := by
  induction l generalizing n with
  | nil => rfl
  | cons s ss ih => simp [enumFrom, ih]

/-- Characterization of createStringMap shared by the claims: it is none
exactly when no candidate string exists, and otherwise it is the
first-occurrence deduplication of the candidates enumerated from code 1. -/
lemma createStringMap_char (t : List String) (c d : List (Option (List String))) :
    (createStringMap t c d = none ↔ t ++ flattenOpt c ++ flattenOpt d = []) ∧
    ∀ m, createStringMap t c d = some m →
      m = enumFrom 0 (uniqF (t ++ flattenOpt c ++ flattenOpt d)) := by
  by_cases h : uniqF (t ++ flattenOpt c ++ flattenOpt d) = []
  · refine ⟨?_, ?_⟩
    · rw [createStringMap, if_pos h]
      exact iff_of_true rfl ((uniqF_eq_nil_iff _).mp h)
    · intro m hm
      rw [createStringMap, if_pos h] at hm
      cases hm
  · refine ⟨?_, ?_⟩
    · rw [createStringMap, if_neg h]
      constructor
      · intro habs; cases habs
      · intro habs
        exact absurd ((uniqF_eq_nil_iff _).mpr habs) h
    · intro m hm
      rw [createStringMap, if_neg h] at hm
      exact (Option.some.inj hm).symm

/-- C2: createStringMap returns none exactly when no candidate string is
found; otherwise its keys are the candidate strings deduplicated keeping
first occurrences (in first-occurrence order of ticks, then categories, then
data), its codes are exactly 1..N in order with no gaps or repeats, and N is
the number of distinct candidate strings. -/
theorem claimC2_createStringMap_dense_codes (t : List String)
    (c d : List (Option (List String))) :
    (createStringMap t c d = none ↔ t ++ flattenOpt c ++ flattenOpt d = []) ∧
    ∀ m, createStringMap t c d = some m →
      (m.map Prod.fst).Nodup ∧
      (∀ s, s ∈ m.map Prod.fst ↔ s ∈ t ++ flattenOpt c ++ flattenOpt d) ∧
      m.map Prod.snd = (List.range m.length).map (fun i => ((i + 1 : ℕ) : ℚ)) ∧
      m.length = (t ++ flattenOpt c ++ flattenOpt d).toFinset.card ∧
      List.Pairwise
        (fun a b => (t ++ flattenOpt c ++ flattenOpt d).indexOf a
          < (t ++ flattenOpt c ++ flattenOpt d).indexOf b)
        (m.map Prod.fst) := by
  obtain ⟨hnone, hsome⟩ := createStringMap_char t c d
  refine ⟨hnone, fun m hm => ?_⟩
  set cand := t ++ flattenOpt c ++ flattenOpt d with hcand
  have hme := hsome m hm
  have hfst : m.map Prod.fst = uniqF cand := by rw [hme, enumFrom_map_fst]
  have hnodup : (m.map Prod.fst).Nodup := hfst ▸ uniqF_nodup cand
  have hmemiff : ∀ s, s ∈ m.map Prod.fst ↔ s ∈ cand := by
    intro s; rw [hfst]; exact uniqF_mem cand s
  refine ⟨hnodup, hmemiff, ?_, ?_, ?_⟩
  · rw [hme, enumFrom_map_snd, enumFrom_length]
    apply List.map_congr_left
    intro i _
    congr 1
    omega
  · have hfin : (m.map Prod.fst).toFinset = cand.toFinset := by
      apply Finset.ext
      intro s
      rw [List.mem_toFinset, List.mem_toFinset]
      exact hmemiff s
    calc m.length = (m.map Prod.fst).length := (List.length_map m Prod.fst).symm
      _ = (m.map Prod.fst).toFinset.card :=
          (List.toFinset_card_of_nodup hnodup).symm
      _ = cand.toFinset.card := by rw [hfin]
  · rw [hfst]
    exact uniqF_pairwise_indexOf cand

/-- Witness for C2 at a concrete input: ticks contribute b, categories a
and b, data c; the map keeps first occurrences b, a, c with codes 1, 2, 3. -/
theorem claimC2_createStringMap_dense_codes_witness :
    (createStringMap [] [] [] = none ↔
      ([] : List String) ++ flattenOpt [] ++ flattenOpt [] = []) ∧
    ((createStringMap ["b"] [some ["a", "b"]] [some ["c"], none] =
        some [("b", 1), ("a", 2), ("c", 3)]) ∧
      ((([("b", (1 : ℚ)), ("a", 2), ("c", 3)]).map Prod.fst).Nodup ∧
        (([("b", (1 : ℚ)), ("a", 2), ("c", 3)]).map Prod.snd =
          (List.range 3).map (fun i => ((i + 1 : ℕ) : ℚ))))) := by
  refine ⟨(claimC2_createStringMap_dense_codes [] [] []).1, by decide, ?_⟩
  have h := (claimC2_createStringMap_dense_codes
    ["b"] [some ["a", "b"]] [some ["c"], none]).2
    [("b", 1), ("a", 2), ("c", 3)] (by decide)
  exact ⟨h.1, by decide⟩

/- ----------------------------------------------------------------------
   TickResolver (getTicksFromData / getTicksFromAxis / getTicks /
   getTickFormat, lines 139-179 of helper-methods.js)
   ---------------------------------------------------------------------- -/

/-- JavaScript values appearing in tick and category arrays: numbers,
strings, or undefined (the result of a failed lookup). -/
inductive JSVal where
  | num (q : ℚ)
  | str (s : String)
  | undefined
deriving DecidableEq, Repr

/-- A per-axis StringMap as built by createStringMap: a JS object modelled
as an association list in insertion order with first-match lookup (its keys
are distinct by construction). -/
abbrev StringMap := List (String × ℚ)

/-- Lookup `stringMap[tick]` on the string-keyed object. -/
def smLookup : StringMap → String → Option ℚ
  | [], _ => none
  | (s0, c) :: rest, s => if s0 = s then some c else smLookup rest s

/-- Modelled from the spec: victory-core Collection.containsStrings holds
when some member of the array is a string. -/
def containsStrings (l : List JSVal) : Bool :=
  l.any (fun v => match v with | .str _ => true | _ => false)

/-- Modelled from the spec: victory-core Collection.containsOnlyStrings
holds when every member of the array is a string (vacuously on empty). -/
def containsOnlyStrings (l : List JSVal) : Bool :=
  l.all (fun v => match v with | .str _ => true | _ => false)

/-- Embedding of lodash values on a string-keyed object: the values in
insertion order. -/
def smValues (m : StringMap) : List ℚ := m.map Prod.snd

/-- Embedding of `(tick) => stringMap[tick]`: translate a string tick
through the StringMap; a missing key or a StringMap of null yields
undefined (the null case is unreachable in the callers, which either guard
on the map being present or rely on string categories implying a map). -/
def mapTickThrough (sm : Option StringMap) (t : JSVal) : JSVal :=
  match t with
  | .str s =>
    match sm with
    | some m => (match smLookup m s with | some c => .num c | none => .undefined)
    | none => .undefined
  | _ => .undefined

/-- Embedding of `getTicksFromAxis`, lines 150-158: declared tick values
pass through, translated through the StringMap only when they are all
strings and a StringMap exists. -/
def getTicksFromAxis (tickValues : Option (List JSVal))
    (stringMap : Option StringMap) : Option (List JSVal) :=
  match tickValues with
  | none => none
  | some tv =>
    some (if containsOnlyStrings tv && stringMap.isSome
          then tv.map (mapTickThrough stringMap)
          else tv)

/-- Embedding of `getTicksFromData`, lines 139-148: category values
(translated through the StringMap when all strings), else the StringMap
values, else nothing.  A present-but-empty category array is truthy in JS
and is returned as is. -/
def getTicksFromData (categories : Option (List JSVal))
    (stringMap : Option StringMap) : Option (List JSVal) :=
  let ticksFromCategories : Option (List JSVal) :=
    match categories with
    | none => none
    | some ca =>
      some (if containsOnlyStrings ca then ca.map (mapTickThrough stringMap) else ca)
  match ticksFromCategories with
  | some l => some l
  | none =>
    match stringMap with
    | some m => some ((smValues m).map JSVal.num)
    | none => none

/-- Embedding of `getTicks`, lines 160-162: axis ticks win (any array,
even empty, is truthy), else data ticks. -/
def getTicks (tickValues categories : Option (List JSVal))
    (stringMap : Option StringMap) : Option (List JSVal) :=
  match getTicksFromAxis tickValues stringMap with
  | some l => some l
  | none => getTicksFromData categories stringMap

/-- Embedding of lodash invert: swap keys and values.  Lodash keeps the
last binding when a value repeats; the maps built by createStringMap have
distinct codes, for which first-match and last-match lookup agree, so an
order-preserving swap with first-match lookup is used. -/
def smInvert (m : StringMap) : List (ℚ × String) :=
  m.map (fun p => (p.2, p.1))

/-- Lookup `invertedStringMap[tick]` on the code-keyed object. -/
def invLookup : List (ℚ × String) → ℚ → Option String
  | [], _ => none
  | (c0, s) :: rest, c => if c0 = c then some s else invLookup rest c

/-- Embedding of JS array indexing `arr[x]` by a numeric tick position:
defined for a non-negative integer position in range, undefined
otherwise. -/
def jsIndex (l : List JSVal) (x : JSVal) : JSVal :=
  match x with
  | .num q =>
    if q.den = 1 ∧ 0 ≤ q.num then (l[q.num.toNat]?).getD .undefined else .undefined
  | _ => .undefined

/-- Embedding of lines 170-174 of `getTickFormat`: sort the StringMap
codes ascending (lodash sortBy, a stable sort, modelled by insertion
sort), look each code up in the inverted map, and pad the resulting label
list with one empty string at each end. -/
def dataTicksOf (m : StringMap) : List JSVal :=
  let tickValueArray := List.insertionSort (fun a b : ℚ => a ≤ b) (smValues m)
  let dataNames := tickValueArray.map (fun c => invLookup (smInvert m) c)
  JSVal.str "" ::
    (dataNames.map (fun o => match o with | some s => JSVal.str s | none => JSVal.undefined))
    ++ [JSVal.str ""]

/-- The two non-identity branches of `getTickFormat`: the StringMap-based
padded-list formatter when the StringMap is not null, else the scale
collaborator's tick format function, else identity. -/
def tickFormatFallback (stringMap : Option StringMap)
    (scaleTickFormat : Option (JSVal → JSVal)) : JSVal → JSVal :=
  match stringMap with
  | some m => fun x => jsIndex (dataTicksOf m) x
  | none => scaleTickFormat.getD (fun x => x)

/-- Embedding of `getTickFormat`, lines 164-179: identity when tick values
are declared and contain no string, else the StringMap padded-list
formatter when the StringMap is not null, else the scale tick format or
identity. -/
def getTickFormat (tickValues : Option (List JSVal))
    (stringMap : Option StringMap)
    (scaleTickFormat : Option (JSVal → JSVal)) : JSVal → JSVal :=
  match tickValues with
  | some tv =>
    if containsStrings tv then tickFormatFallback stringMap scaleTickFormat
    else fun x => x
  | none => tickFormatFallback stringMap scaleTickFormat

/-- C5: explicit tick values on an axis child win over computed ticks:
with declared tickValues, getTicks always returns the getTicksFromAxis
result, unaffected by category data; and when the declared values are not
all strings they pass through unchanged whatever the StringMap. -/
theorem claimC5_explicit_ticks_win (tv : List JSVal)
    (cats cats' : Option (List JSVal)) (sm : Option StringMap) :
    getTicks (some tv) cats sm = getTicksFromAxis (some tv) sm ∧
    getTicks (some tv) cats sm = getTicks (some tv) cats' sm ∧
    (containsOnlyStrings tv = false → getTicks (some tv) cats sm = some tv) := by
  refine ⟨rfl, rfl, fun h => ?_⟩
  simp [getTicks, getTicksFromAxis, h]

/-- Witness for C5 at concrete inputs: numeric tick values [1, 2] pass
through unchanged despite a StringMap and category data. -/
theorem claimC5_explicit_ticks_win_witness :
    containsOnlyStrings [JSVal.num 1, JSVal.num 2] = false ∧
    getTicks (some [JSVal.num 1, JSVal.num 2]) (some [JSVal.str "x"])
        (some [("a", 1)]) =
      some [JSVal.num 1, JSVal.num 2] :=
  ⟨by decide,
   (claimC5_explicit_ticks_win [JSVal.num 1, JSVal.num 2] (some [JSVal.str "x"])
      none (some [("a", 1)])).2.2 (by decide)⟩

lemma jsIndex_dataTicks_zero (m : StringMap) :
    jsIndex (dataTicksOf m) (JSVal.num 0) = JSVal.str "" := by
  obtain ⟨L, hL⟩ : ∃ L, dataTicksOf m = JSVal.str "" :: L := ⟨_, rfl⟩
  rw [hL, jsIndex]
  rw [if_pos (by norm_num : (0 : ℚ).den = 1 ∧ 0 ≤ (0 : ℚ).num)]
  have h0 : (0 : ℚ).num.toNat = 0 := by norm_num
  rw [h0, List.getElem?_cons_zero]
  rfl

/-- C10: for declared tick values mixing strings and non-strings, with a
StringMap present, getTicks returns the declared values unmapped while
getTickFormat returns the StringMap padded-list formatter (which maps
position 0 to an empty-string label, unlike the identity formatter). -/
theorem claimC10_mixed_ticks_inconsistent (tv : List JSVal) (m : StringMap)
    (cats : Option (List JSVal)) (sf : Option (JSVal → JSVal))
    (hs : containsStrings tv = true) (ho : containsOnlyStrings tv = false) :
    getTicks (some tv) cats (some m) = some tv ∧
    getTickFormat (some tv) (some m) sf = (fun x => jsIndex (dataTicksOf m) x) ∧
    getTickFormat (some tv) (some m) sf (JSVal.num 0) = JSVal.str "" := by
  have hf : getTickFormat (some tv) (some m) sf =
      (fun x => jsIndex (dataTicksOf m) x) := by
    simp [getTickFormat, hs, tickFormatFallback]
  refine ⟨by simp [getTicks, getTicksFromAxis, ho], hf, ?_⟩
  rw [hf]
  exact jsIndex_dataTicks_zero m

/-- Witness for C10 at concrete inputs: declared ticks [str a, num 2] with
StringMap a to 1. -/
theorem claimC10_mixed_ticks_inconsistent_witness :
    getTicks (some [JSVal.str "a", JSVal.num 2]) none (some [("a", 1)]) =
      some [JSVal.str "a", JSVal.num 2] ∧
    getTickFormat (some [JSVal.str "a", JSVal.num 2]) (some [("a", 1)]) none =
      (fun x => jsIndex (dataTicksOf [("a", 1)]) x) ∧
    getTickFormat (some [JSVal.str "a", JSVal.num 2]) (some [("a", 1)]) none
        (JSVal.num 0) = JSVal.str "" :=
  claimC10_mixed_ticks_inconsistent [JSVal.str "a", JSVal.num 2] [("a", 1)]
    none none (by decide) (by decide)

lemma sorted_smValues_enumFrom (n : Nat) (l : List String) :
    (smValues (enumFrom n l)).Sorted (fun a b : ℚ => a ≤ b) := by
  show List.Pairwise _ _
  unfold smValues
  rw [enumFrom_map_snd, List.pairwise_map]
  refine (List.pairwise_lt_range l.length).imp ?_
  intro a b hab
  exact_mod_cast Nat.le_of_lt (by omega)

lemma mem_smValues_enumFrom {c : ℚ} {n : Nat} {l : List String}
    (h : c ∈ smValues (enumFrom n l)) :
    ∃ i, i < l.length ∧ c = ((n + i + 1 : ℕ) : ℚ) := by
  unfold smValues at h
  rw [enumFrom_map_snd] at h
  simp only [List.mem_map, List.mem_range] at h
  obtain ⟨i, hi, hc⟩ := h
  exact ⟨i, hi, hc.symm⟩

lemma invLookup_enumFrom_names (n : Nat) (l : List String) :
    (smValues (enumFrom n l)).map (fun c => invLookup (smInvert (enumFrom n l)) c)
      = l.map some := by
  induction l generalizing n with
  | nil => rfl
  | cons s ss ih =>
    show (((n + 1 : ℕ) : ℚ) :: smValues (enumFrom (n + 1) ss)).map
        (fun c => invLookup ((((n + 1 : ℕ) : ℚ), s) :: smInvert (enumFrom (n + 1) ss)) c)
      = some s :: ss.map some
    rw [List.map_cons]
    congr 1
    · simp [invLookup]
    · have hne : ∀ c ∈ smValues (enumFrom (n + 1) ss), ¬(((n + 1 : ℕ) : ℚ) = c) := by
        intro c hc heq
        obtain ⟨i, _, rfl⟩ := mem_smValues_enumFrom hc
        have : (n + 1 : ℕ) = (n + 1 + i + 1 : ℕ) := by exact_mod_cast heq
        omega
      calc (smValues (enumFrom (n + 1) ss)).map
            (fun c => invLookup ((((n + 1 : ℕ) : ℚ), s) :: smInvert (enumFrom (n + 1) ss)) c)
          = (smValues (enumFrom (n + 1) ss)).map
            (fun c => invLookup (smInvert (enumFrom (n + 1) ss)) c) := by
            apply List.map_congr_left
            intro c hc
            rw [invLookup, if_neg (hne c hc)]
        _ = ss.map some := ih (n + 1)

lemma dataTicksOf_enumFrom (n : Nat) (l : List String) :
    dataTicksOf (enumFrom n l) =
      JSVal.str "" :: l.map JSVal.str ++ [JSVal.str ""] := by
  show JSVal.str "" ::
      (((List.insertionSort (fun a b : ℚ => a ≤ b) (smValues (enumFrom n l))).map
        (fun c => invLookup (smInvert (enumFrom n l)) c)).map
          (fun o => match o with | some s => JSVal.str s | none => JSVal.undefined))
      ++ [JSVal.str ""]
    = JSVal.str "" :: l.map JSVal.str ++ [JSVal.str ""]
  rw [List.Sorted.insertionSort_eq (sorted_smValues_enumFrom n l),
    invLookup_enumFrom_names n l, List.map_map]
  rfl

lemma getElem?_eq_some_getD {α : Type} [Inhabited α] (l : List α) (i : Nat) (d : α)
    (h : i < l.length) : l[i]? = some (l.getD i d) := by
  rw [List.getD_eq_getElem?_getD]
  cases hq : l[i]? with
  | none =>
    rw [List.getElem?_eq_none_iff] at hq
    omega
  | some v => rfl

/-- C4: for StringMap a to 1, b to 2, c to 3 with no explicit tick values and
no category data, the computed ticks are the StringMap values [1, 2, 3] and
the format function maps 0, 1, 2, 3, 4 to the empty label, a, b, c, and the
empty label; in general, for any StringMap produced by createStringMap, the
formatter indexes into the padded label list built from the codes sorted
ascending, so code i + 1 maps back to the i-th key and the padding
positions 0 and N + 1 map to the empty label. -/
theorem claimC4_stringmap_ticks_and_format :
    (getTicks none none (some [("a", 1), ("b", 2), ("c", 3)]) =
      some [JSVal.num 1, JSVal.num 2, JSVal.num 3]) ∧
    (getTickFormat none (some [("a", 1), ("b", 2), ("c", 3)]) none
        (JSVal.num 0) = JSVal.str "" ∧
      getTickFormat none (some [("a", 1), ("b", 2), ("c", 3)]) none
        (JSVal.num 1) = JSVal.str "a" ∧
      getTickFormat none (some [("a", 1), ("b", 2), ("c", 3)]) none
        (JSVal.num 2) = JSVal.str "b" ∧
      getTickFormat none (some [("a", 1), ("b", 2), ("c", 3)]) none
        (JSVal.num 3) = JSVal.str "c" ∧
      getTickFormat none (some [("a", 1), ("b", 2), ("c", 3)]) none
        (JSVal.num 4) = JSVal.str "") ∧
    (∀ (t : List String) (c d : List (Option (List String)))
        (m : StringMap) (sf : Option (JSVal → JSVal)),
      createStringMap t c d = some m →
        getTicks none none (some m) = some ((smValues m).map JSVal.num) ∧
        dataTicksOf m =
          JSVal.str "" :: (m.map Prod.fst).map JSVal.str ++ [JSVal.str ""] ∧
        getTickFormat none (some m) sf (JSVal.num 0) = JSVal.str "" ∧
        getTickFormat none (some m) sf
          (JSVal.num ((m.length + 1 : ℕ) : ℚ)) = JSVal.str "" ∧
        ∀ i, i < m.length →
          getTickFormat none (some m) sf (JSVal.num ((i + 1 : ℕ) : ℚ)) =
            JSVal.str ((m.map Prod.fst).getD i "")) := by
  refine ⟨by decide, ⟨by decide, by decide, by decide, by decide, by decide⟩,
    ?_⟩
  intro t c d m sf hm
  have hme := (createStringMap_char t c d).2 m hm
  have hdt : dataTicksOf m =
      JSVal.str "" :: (m.map Prod.fst).map JSVal.str ++ [JSVal.str ""] := by
    rw [hme, dataTicksOf_enumFrom, enumFrom_map_fst]
  refine ⟨rfl, hdt, ?_, ?_, ?_⟩
  · exact jsIndex_dataTicks_zero m
  · show jsIndex (dataTicksOf m) (JSVal.num ((m.length + 1 : ℕ) : ℚ)) = JSVal.str ""
    rw [hdt, jsIndex]
    rw [if_pos ⟨Rat.den_natCast _,
      by rw [Rat.num_natCast]; exact Int.natCast_nonneg _⟩]
    have ht : ((m.length + 1 : ℕ) : ℚ).num.toNat = m.length + 1 := by
      rw [Rat.num_natCast]; exact Int.toNat_natCast _
    rw [ht, List.cons_append, List.getElem?_cons_succ]
    rw [List.getElem?_append_right (by simp)]
    simp
  · intro i hi
    show jsIndex (dataTicksOf m) (JSVal.num ((i + 1 : ℕ) : ℚ)) =
      JSVal.str ((m.map Prod.fst).getD i "")
    rw [hdt, jsIndex]
    rw [if_pos ⟨Rat.den_natCast _,
      by rw [Rat.num_natCast]; exact Int.natCast_nonneg _⟩]
    have ht : ((i + 1 : ℕ) : ℚ).num.toNat = i + 1 := by
      rw [Rat.num_natCast]; exact Int.toNat_natCast _
    rw [ht, List.cons_append, List.getElem?_cons_succ]
    rw [List.getElem?_append_left (by simpa using hi), List.getElem?_map,
      getElem?_eq_some_getD (m.map Prod.fst) i "" (by simpa using hi)]
    rfl

/-- Witness for C4 in the general branch: the StringMap built from
candidate strings a, b, c has ticks equal to its values and a formatter
sending code 2 back to the key b. -/
theorem claimC4_stringmap_ticks_and_format_witness :
    getTicks none none (some (enumFrom 0 ["a", "b", "c"])) =
      some ((smValues (enumFrom 0 ["a", "b", "c"])).map JSVal.num) ∧
    getTickFormat none (some (enumFrom 0 ["a", "b", "c"])) none
        (JSVal.num ((1 + 1 : ℕ) : ℚ)) =
      JSVal.str (((enumFrom 0 ["a", "b", "c"]).map Prod.fst).getD 1 "") := by
  have h := claimC4_stringmap_ticks_and_format.2.2 ["a", "b", "c"] [] []
    (enumFrom 0 ["a", "b", "c"]) none (by decide)
  exact ⟨h.1, h.2.2.2.2 1 (by decide)⟩

/- ----------------------------------------------------------------------
   Child model, CategoryAggregator (getDataComponents / getCategories,
   lines 85-95 and 202-215 of helper-methods.js)
   ---------------------------------------------------------------------- -/

/-- The `categories` prop of a child: either an array of arrays of raw
values (each inner array one category) or a flat array of numeric category
positions.  The constructor records the shape that
victory-core Collection.isArrayOfArrays tests for. -/
inductive CatProp where
  | ofArrays (ls : List (List ℚ))
  | flat (l : List ℚ)
deriving DecidableEq

/-- A declared child element as this module reads it: whether it has a
type (elements without one are skipped), its `type.role` tag (absent when
the type declares no role), its `dependentAxis` prop (fixing the axis key
of an axis-role child), its `categories` prop, and an identifier standing
for the rest of the element (so distinct elements stay distinct). -/
structure VChild where
  hasType : Bool
  role : Option String
  dependentAxis : Bool
  categories : Option CatProp
  id : Nat
deriving DecidableEq

/-- Embedding of `getDataComponents`, lines 85-95: filter children by the
role-class predicate (`all` is every non-axis role, `data` every role that
is neither axis nor bar, `grouped` exactly the bar role).  A child with no
type has no role (`child.type && child.type.role` is falsy). -/
def getDataComponents (childComponents : List VChild) (t : String) : List VChild :=
  childComponents.filter (fun child =>
    let role := if child.hasType then child.role else none
    if t = "all" then !(role == some "axis")
    else if t = "data" then !(role == some "axis") && !(role == some "bar")
    else if t = "grouped" then role == some "bar"
    else false)

/-- Embedding of `sum(arr) / arr.length` on line 211.  JS yields NaN for an
empty inner array where this model yields 0; no statement below exercises
that corner. -/
def mean (l : List ℚ) : ℚ := l.sum / (l.length : ℚ)

/-- Embedding of `prev.indexOf(categories)` on line 212.  JS
Array.prototype.indexOf compares with strict equality; `categories` is an
array while `prev` holds only numbers (because `prev.concat(categories)`
spreads the array into its elements), and a number is never strictly equal
to an array, so the index is always -1 and the guard never skips
anything. -/
def jsIndexOfArr (_prev : List ℚ) (_categories : List ℚ) : Int := -1

/-- Embedding of `getCategories`, lines 202-215: undefined when no
grouped (bar-role) child exists; otherwise reduce each inner array of an
array-of-arrays categories prop to its arithmetic mean, then concatenate
across children under the (dead, see jsIndexOfArr) indexOf guard. -/
def getCategories (childComponents : List VChild) : Option (List ℚ) :=
  let groupedComponents := getDataComponents childComponents "grouped"
  if groupedComponents = [] then none
  else
    let allCategories := groupedComponents.foldl (fun prev c =>
      match c.categories with
      | none => prev
      | some cp =>
        let categories : List ℚ :=
          match cp with
          | .ofArrays ls => ls.map mean
          | .flat l => l
        if jsIndexOfArr prev categories = -1 then prev ++ categories else prev) []
    if allCategories = [] then none else some allCategories

/-- C6 failing input, first grouped child: categories [[1, 3], [5, 7]]. -/
def c6child1 : VChild :=
  { hasType := true, role := some "bar", dependentAxis := false,
    categories := some (.ofArrays [[1, 3], [5, 7]]), id := 1 }

/-- C6 failing input, second grouped child: categories [2, 6]. -/
def c6child2 : VChild :=
  { hasType := true, role := some "bar", dependentAxis := false,
    categories := some (.flat [2, 6]), id := 2 }

/-- C6: the claim says the two grouped children with categories
[[1, 3], [5, 7]] and [2, 6] yield the deduplicated result [2, 6]; the code
instead yields [2, 6, 2, 6], because the indexOf dedup guard compares the
whole categories array against the accumulated scalar entries and never
fires. -/
theorem claimC6_getCategories_no_dedup :
    getCategories [c6child1, c6child2] = some [2, 6, 2, 6] ∧
    getCategories [c6child1, c6child2] ≠ some [2, 6] := by
  have h1 : mean [1, 3] = 2 := by norm_num [mean]
  have h2 : mean [5, 7] = 6 := by norm_num [mean]
  have h : getCategories [c6child1, c6child2] = some [2, 6, 2, 6] := by
    simp [getCategories, getDataComponents, jsIndexOfArr, c6child1, c6child2,
      h1, h2]
  exact ⟨h, by rw [h]; simp⟩

/- ----------------------------------------------------------------------
   OffsetCalculator (getAxisOffset, lines 114-137 of helper-methods.js)
   ---------------------------------------------------------------------- -/

/-- A resolved axis component as `getAxisOffset` reads it: its declared
orientation and the explicit per-axis offset overrides read directly off
the component (`axisComponents.x.offsetX`). -/
structure AxisComp where
  orientation : Option String
  offsetX : Option ℚ
  offsetY : Option ℚ
deriving DecidableEq

/-- Modelled from the spec: the axis lookup collaborator
(repository helper Axis.getOrientation, not under src/) returns the axis
component's declared orientation, defaulting to bottom for the horizontal
axis and left for the vertical axis. -/
def getOrientation (c : AxisComp) (axis : String) : String :=
  c.orientation.getD (if axis = "x" then "bottom" else "left")

/-- Embedding of a JS `a || b` with numeric `a`: the fallback is used when
the override is absent or zero (both falsy). -/
def jsOrQ (o : Option ℚ) (fallback : ℚ) : ℚ :=
  match o with
  | some v => if v = 0 then fallback else v
  | none => fallback

/-- Embedding of `getAxisOffset`, lines 114-137: clamp each domain's lower
bound at zero to get the origin, anchor on the chart edge named by the
other axis's orientation, take the absolute difference with the
scale-transformed origin, and let a truthy explicit offset override the
computed value.  Domains are endpoint pairs and the scale transforms are
the external scale collaborators. -/
def getAxisOffset (width height : ℚ) (domainX domainY : ℚ × ℚ)
    (axisX axisY : AxisComp) (scaleX scaleY : ℚ → ℚ) : ℚ × ℚ :=
  let originX := max (min domainX.1 domainX.2) 0
  let originY := max (min domainY.1 domainY.2) 0
  let orientationOffsetX := if getOrientation axisY "y" = "left" then 0 else width
  let orientationOffsetY := if getOrientation axisX "x" = "bottom" then height else 0
  let calculatedX := |orientationOffsetX - scaleX originX|
  let calculatedY := |orientationOffsetY - scaleY originY|
  (jsOrQ axisX.offsetX calculatedX, jsOrQ axisY.offsetY calculatedY)

/-- C7 counterexample: with an explicit offsetX of 0 on the x axis child
(domain x [-2, 10], y-axis oriented left, x-axis bottom, width 400, height
300, scale x mapping 0 to pixel 100), the claim says the returned x offset
is the explicit override 0; the code treats 0 as falsy and returns the
computed offset 100 instead. -/
theorem claimC7_counterexample_zero_offset :
    (getAxisOffset 400 300 (-2, 10) (0, 5)
        { orientation := some "bottom", offsetX := some 0, offsetY := none }
        { orientation := some "left", offsetX := none, offsetY := none }
        (fun q => q * 10 + 100) (fun q => 300 - q * 10)).1 = 100 ∧
    ¬((getAxisOffset 400 300 (-2, 10) (0, 5)
        { orientation := some "bottom", offsetX := some 0, offsetY := none }
        { orientation := some "left", offsetX := none, offsetY := none }
        (fun q => q * 10 + 100) (fun q => 300 - q * 10)).1 = 0) := by
  have h : (getAxisOffset 400 300 (-2, 10) (0, 5)
      { orientation := some "bottom", offsetX := some 0, offsetY := none }
      { orientation := some "left", offsetX := none, offsetY := none }
      (fun q => q * 10 + 100) (fun q => 300 - q * 10)).1 = 100 := by
    show jsOrQ (some 0) |(if getOrientation
        { orientation := some "left", offsetX := none, offsetY := none } "y"
          = "left" then (0 : ℚ) else 400)
      - (max (min (-2 : ℚ) 10) 0 * 10 + 100)| = 100
    norm_num [jsOrQ, getOrientation]
  exact ⟨h, by rw [h]; norm_num⟩

/-- C7 as amended: getAxisOffset computes per axis the origin
max(min(domain), 0), the orientation anchor (0 when the y axis is oriented
left, else the width; the height when the x axis is oriented bottom, else
0), and the absolute difference between anchor and scale-transformed
origin; the explicit offsetX/offsetY override on the axis child is used
only when present and nonzero (a present zero is falsy and falls back to
the computed value). -/
theorem claimC7_getAxisOffset_amended (w h : ℚ) (dx dy : ℚ × ℚ)
    (ax ay : AxisComp) (sx sy : ℚ → ℚ) :
    (∀ v, ax.offsetX = some v → v ≠ 0 →
      (getAxisOffset w h dx dy ax ay sx sy).1 = v) ∧
    (ax.offsetX = none ∨ ax.offsetX = some 0 →
      (getAxisOffset w h dx dy ax ay sx sy).1 =
        |(if getOrientation ay "y" = "left" then 0 else w)
          - sx (max (min dx.1 dx.2) 0)|) ∧
    (∀ v, ay.offsetY = some v → v ≠ 0 →
      (getAxisOffset w h dx dy ax ay sx sy).2 = v) ∧
    (ay.offsetY = none ∨ ay.offsetY = some 0 →
      (getAxisOffset w h dx dy ax ay sx sy).2 =
        |(if getOrientation ax "x" = "bottom" then h else 0)
          - sy (max (min dy.1 dy.2) 0)|) := by
  refine ⟨?_, ?_, ?_, ?_⟩
  · intro v hv hnz
    show jsOrQ ax.offsetX _ = v
    rw [hv, jsOrQ, if_neg hnz]
  · rintro (hv | hv) <;>
      · show jsOrQ ax.offsetX _ = _
        rw [hv]
        simp [jsOrQ]
  · intro v hv hnz
    show jsOrQ ay.offsetY _ = v
    rw [hv, jsOrQ, if_neg hnz]
  · rintro (hv | hv) <;>
      · show jsOrQ ay.offsetY _ = _
        rw [hv]
        simp [jsOrQ]

/-- Witness for the amended C7: a nonzero override of 5 is returned as is,
and an absent override yields the computed absolute difference. -/
theorem claimC7_getAxisOffset_amended_witness :
    (getAxisOffset 10 20 (0, 1) (0, 1)
        { orientation := none, offsetX := some 5, offsetY := none }
        { orientation := none, offsetX := none, offsetY := none }
        (fun _ => 7) (fun _ => 9)).1 = 5 ∧
    (getAxisOffset 10 20 (0, 1) (0, 1)
        { orientation := none, offsetX := none, offsetY := none }
        { orientation := none, offsetX := none, offsetY := none }
        (fun _ => 7) (fun _ => 9)).1 = 7 := by
  constructor
  · exact (claimC7_getAxisOffset_amended 10 20 (0, 1) (0, 1)
      { orientation := none, offsetX := some 5, offsetY := none }
      { orientation := none, offsetX := none, offsetY := none }
      (fun _ => 7) (fun _ => 9)).1 5 rfl (by norm_num)
  · have := (claimC7_getAxisOffset_amended 10 20 (0, 1) (0, 1)
      { orientation := none, offsetX := none, offsetY := none }
      { orientation := none, offsetX := none, offsetY := none }
      (fun _ => 7) (fun _ => 9)).2.1 (Or.inl rfl)
    rw [this]
    have horient : getOrientation
        { orientation := none, offsetX := none, offsetY := none } "y" = "left" := rfl
    rw [horient, if_pos rfl]
    norm_num

/- ----------------------------------------------------------------------
   ChildSelector (getChildComponents, lines 14-83 of helper-methods.js)
   ---------------------------------------------------------------------- -/

/-- Modelled from the spec: the axis lookup collaborator (repository
helper Axis.getAxisType, not under src/) reports whether a node is
axis-typed and, if so, its axis key: an axis-role child is dependent when
its dependentAxis prop is set, else independent; any other child is not
axis-typed. -/
def getAxisType (c : VChild) : Option AxisKey :=
  if c.hasType && (c.role == some "axis") then
    some (if c.dependentAxis then .dependent else .independent)
  else none

/-- A per-role entry of the `counts` object: a plain number for non-axis
roles, a per-axis-key pair of numbers for axis roles. -/
inductive CountVal where
  | plain (n : Nat)
  | axes (indep dep : Nat)
deriving DecidableEq

/-- The `counts` object, lines 16-28: a JS object keyed by the role tag
(the key is the undefined slot when the child declares no role), modelled
as an association list. -/
abbrev Counts := List (Option String × CountVal)

/-- Property read `counts[type]`. -/
def lookupCount : Counts → Option String → Option CountVal
  | [], _ => none
  | (k0, v) :: rest, k => if k0 = k then some v else lookupCount rest k

/-- Property write `counts[type] = v` (replace, else append a new key). -/
def setCount : Counts → Option String → CountVal → Counts
  | [], k, v => [(k, v)]
  | (k0, v0) :: rest, k, v =>
    if k0 = k then (k, v) :: rest else (k0, v0) :: setCount rest k v

/-- JS truthiness of `counts[type]`: a missing entry and the number 0 are
falsy, a nonzero number and any object are truthy. -/
def countTruthy : Option CountVal → Bool
  | none => false
  | some (.plain 0) => false
  | some _ => true

/-- Embedding of `addChild`, lines 17-28: initialise the role's counter
when falsy (a per-axis record for axis-typed children, the number 0
otherwise), then increment the slot for the child's axis key, or the plain
number.  The two mismatch rows are unreachable (an axis-typed child always
finds a per-axis record under its role, and vice versa) and model the JS
no-op property write on a primitive and the clobbering self-assignment on
a record as leaving the entry unchanged. -/
def addChild (counts : Counts) (c : VChild) : Counts :=
  let type := if c.hasType then c.role else none
  let axis := getAxisType c
  let cur := lookupCount counts type
  let base : CountVal :=
    if countTruthy cur then cur.getD (.plain 0)
    else match axis with
      | some _ => .axes 0 0
      | none => .plain 0
  let inc : CountVal :=
    match axis, base with
    | some .independent, .axes i d => .axes (i + 1) d
    | some .dependent, .axes i d => .axes i (d + 1)
    | some _, .plain n => .plain n
    | none, .plain n => .plain (n + 1)
    | none, .axes i d => .axes i d
  setCount counts type inc

/-- Embedding of `limitReached`, lines 30-42: falsy counters never limit;
an axis-typed child is limited when its axis key already counts at least
one occurrence; a bar-role child when its plain counter counts at least
one; every other role is unlimited.  Reading an axis field off a plain
number yields undefined, whose comparison with 1 is false, and comparing a
record object with 1 is false as well. -/
def limitReached (counts : Counts) (c : VChild) : Bool :=
  let type := if c.hasType then c.role else none
  match lookupCount counts type, getAxisType c with
  | none, _ => false
  | some (.plain 0), _ => false
  | some (.axes i _), some .independent => decide (1 ≤ i)
  | some (.axes _ d), some .dependent => decide (1 ≤ d)
  | some (.plain _), some _ => false
  | some v, none =>
    if type = some "bar" then
      match v with
      | .plain n => decide (1 ≤ n)
      | .axes _ _ => false
    else false

/-- Embedding of `total`, lines 44-48: the axis-key slot of the role's
counter when an axis key is asked for and the entry exists, else the plain
counter, with undefined and non-number reads defaulting to 0. -/
def totalCount (counts : Counts) (t : Option String) (axis : Option AxisKey) : Nat :=
  match axis, lookupCount counts t with
  | some k, some v =>
    (match v, k with
     | .axes i _, .independent => i
     | .axes _ d, .dependent => d
     | .plain _, _ => 0)
  | some _, none => 0
  | none, some (.plain n) => n
  | none, some (.axes _ _) => 0
  | none, none => 0

/-- State of the loop over children: the counts object, the accumulated
childComponents array, and the roles for which a warning was logged. -/
abbrev SelState := Counts × List VChild × List (Option String)

/-- Embedding of the loop body, lines 56-72: skip children with no type
entirely; otherwise warn (recording the role) when the limit is reached,
else push the child; count the child either way. -/
def selStep (st : SelState) (c : VChild) : SelState :=
  if c.hasType then
    if limitReached st.1 c then (addChild st.1 c, st.2.1, st.2.2 ++ [c.role])
    else (addChild st.1 c, st.2.1 ++ [c], st.2.2)
  else st

/-- Embedding of `getChildComponents`, lines 14-83, also returning the
logged warnings: loop over the children, then append the default
independent and dependent axis components when no axis child of that key
was counted.  An absent children prop returns the two defaults, which
coincides with the fold on an empty list. -/
def getChildComponentsW (children : List VChild) (defaults : VChild × VChild) :
    List VChild × List (Option String) :=
  let st := children.foldl selStep ([], [], [])
  let out1 := if totalCount st.1 (some "axis") (some .independent) < 1
              then st.2.1 ++ [defaults.1] else st.2.1
  let out2 := if totalCount st.1 (some "axis") (some .dependent) < 1
              then out1 ++ [defaults.2] else out1
  (out2, st.2.2)

/-- The childComponents list returned by `getChildComponents`. -/
def getChildComponents (children : List VChild) (defaults : VChild × VChild) :
    List VChild :=
  (getChildComponentsW children defaults).1

/-- The children kept by the loop, starting from given occurrence counts
for the independent axis, the dependent axis and the bar role: first
occurrences of the limited roles, everything else in order. -/
def keptFrom (nI nD nB : Nat) : List VChild → List VChild
  | [] => []
  | c :: cs =>
    if c.hasType = false then keptFrom nI nD nB cs
    else match getAxisType c with
      | some .independent =>
        (if 1 ≤ nI then [] else [c]) ++ keptFrom (nI + 1) nD nB cs
      | some .dependent =>
        (if 1 ≤ nD then [] else [c]) ++ keptFrom nI (nD + 1) nB cs
      | none =>
        if c.role = some "bar" then
          (if 1 ≤ nB then [] else [c]) ++ keptFrom nI nD (nB + 1) cs
        else c :: keptFrom nI nD nB cs

/-- The child is an axis child for the given key. -/
def isAxisFor (k : AxisKey) (c : VChild) : Bool :=
  getAxisType c == some k

/-- The child is a grouped (bar-role) child. -/
def isBarChild (c : VChild) : Bool :=
  c.hasType && (c.role == some "bar")

/-- The child has a type and a role that is neither axis nor bar. -/
def isOtherChild (c : VChild) : Bool :=
  c.hasType && !(c.role == some "axis") && !(c.role == some "bar")

/-- The invariant tying the counts object to the number of independent
axis, dependent axis, and bar children counted so far. -/
def CountsInv (counts : Counts) (nI nD nB : Nat) : Prop :=
  ((lookupCount counts (some "axis") = none ∧ nI = 0 ∧ nD = 0) ∨
    lookupCount counts (some "axis") = some (.axes nI nD)) ∧
  ((lookupCount counts (some "bar") = none ∧ nB = 0) ∨
    (lookupCount counts (some "bar") = some (.plain nB) ∧ 1 ≤ nB))

lemma lookupCount_setCount (counts : Counts) (k : Option String) (v : CountVal)
    (k' : Option String) :
    lookupCount (setCount counts k v) k' =
      if k = k' then some v else lookupCount counts k' := by
  induction counts with
  | nil =>
    by_cases h : k = k'
    · simp [setCount, lookupCount, h]
    · simp [setCount, lookupCount, h]
  | cons kv rest ih =>
    obtain ⟨k0, v0⟩ := kv
    by_cases h0 : k0 = k
    · subst h0
      by_cases h1 : k0 = k'
      · subst h1
        simp [setCount, lookupCount]
      · simp [setCount, lookupCount, h1]
    · by_cases h1 : k0 = k'
      · subst h1
        rw [setCount, if_neg h0, lookupCount, if_pos rfl, lookupCount, if_pos rfl,
          if_neg (fun h => h0 h.symm)]
      · rw [setCount, if_neg h0, lookupCount, if_neg h1, lookupCount, if_neg h1, ih]

lemma getAxisType_eq_some {c : VChild} {k : AxisKey} (h : getAxisType c = some k) :
    c.hasType = true ∧ c.role = some "axis" := by
  unfold getAxisType at h
  cases hb : (c.hasType && (c.role == some "axis")) with
  | false => rw [hb] at h; simp at h
  | true =>
    have hand := (Bool.and_eq_true _ _).mp hb
    exact ⟨hand.1, by simpa using hand.2⟩

lemma getAxisType_none_of_role {c : VChild} (hA : c.role ≠ some "axis") :
    getAxisType c = none := by
  unfold getAxisType
  rw [if_neg]
  simp [hA]

lemma limitReached_indep {counts : Counts} {nI nD nB : Nat} {c : VChild}
    (inv : CountsInv counts nI nD nB) (hc : getAxisType c = some .independent) :
    limitReached counts c = decide (1 ≤ nI) := by
  obtain ⟨hT, hR⟩ := getAxisType_eq_some hc
  rcases inv.1 with ⟨hl, hI0, _⟩ | hl
  · subst hI0
    simp [limitReached, hT, hR, hl, hc]
  · simp [limitReached, hT, hR, hl, hc]

lemma limitReached_dep {counts : Counts} {nI nD nB : Nat} {c : VChild}
    (inv : CountsInv counts nI nD nB) (hc : getAxisType c = some .dependent) :
    limitReached counts c = decide (1 ≤ nD) := by
  obtain ⟨hT, hR⟩ := getAxisType_eq_some hc
  rcases inv.1 with ⟨hl, _, hD0⟩ | hl
  · subst hD0
    simp [limitReached, hT, hR, hl, hc]
  · simp [limitReached, hT, hR, hl, hc]

lemma limitReached_bar {counts : Counts} {nI nD nB : Nat} {c : VChild}
    (inv : CountsInv counts nI nD nB) (hT : c.hasType = true)
    (hR : c.role = some "bar") :
    limitReached counts c = decide (1 ≤ nB) := by
  have hax : getAxisType c = none := getAxisType_none_of_role (by rw [hR]; simp)
  rcases inv.2 with ⟨hl, hB0⟩ | ⟨hl, hB1⟩
  · subst hB0
    simp [limitReached, hT, hR, hl, hax]
  · obtain ⟨m, rfl⟩ : ∃ m, nB = m + 1 := ⟨nB - 1, by omega⟩
    simp [limitReached, hT, hR, hl, hax]

lemma limitReached_other (counts : Counts) {c : VChild}
    (hT : c.hasType = true) (hA : c.role ≠ some "axis") (hB : c.role ≠ some "bar") :
    limitReached counts c = false := by
  have hax : getAxisType c = none := getAxisType_none_of_role hA
  cases hl : lookupCount counts c.role with
  | none => simp [limitReached, hT, hl, hax]
  | some v =>
    cases v with
    | plain n =>
      cases n with
      | zero => simp [limitReached, hT, hl, hax]
      | succ m => simp [limitReached, hT, hl, hax, hB]
    | axes i d => simp [limitReached, hT, hl, hax, hB]

lemma addChild_lookup_other (counts : Counts) (c : VChild) (hT : c.hasType = true)
    (k' : Option String) (hk : c.role ≠ k') :
    lookupCount (addChild counts c) k' = lookupCount counts k' := by
  simp [addChild, hT, lookupCount_setCount, hk]

lemma addChild_indep {counts : Counts} {nI nD nB : Nat} {c : VChild}
    (inv : CountsInv counts nI nD nB) (hc : getAxisType c = some .independent) :
    CountsInv (addChild counts c) (nI + 1) nD nB := by
  obtain ⟨hT, hR⟩ := getAxisType_eq_some hc
  have hbar : lookupCount (addChild counts c) (some "bar") =
      lookupCount counts (some "bar") :=
    addChild_lookup_other counts c hT (some "bar") (by rw [hR]; simp)
  have haxis : lookupCount (addChild counts c) (some "axis") =
      some (.axes (nI + 1) nD) := by
    rcases inv.1 with ⟨hl, hI0, hD0⟩ | hl
    · subst hI0; subst hD0
      simp [addChild, hT, hR, hl, hc, countTruthy, lookupCount_setCount]
    · simp [addChild, hT, hR, hl, hc, countTruthy, lookupCount_setCount]
  exact ⟨Or.inr haxis, by rw [hbar]; exact inv.2⟩

lemma addChild_dep {counts : Counts} {nI nD nB : Nat} {c : VChild}
    (inv : CountsInv counts nI nD nB) (hc : getAxisType c = some .dependent) :
    CountsInv (addChild counts c) nI (nD + 1) nB := by
  obtain ⟨hT, hR⟩ := getAxisType_eq_some hc
  have hbar : lookupCount (addChild counts c) (some "bar") =
      lookupCount counts (some "bar") :=
    addChild_lookup_other counts c hT (some "bar") (by rw [hR]; simp)
  have haxis : lookupCount (addChild counts c) (some "axis") =
      some (.axes nI (nD + 1)) := by
    rcases inv.1 with ⟨hl, hI0, hD0⟩ | hl
    · subst hI0; subst hD0
      simp [addChild, hT, hR, hl, hc, countTruthy, lookupCount_setCount]
    · simp [addChild, hT, hR, hl, hc, countTruthy, lookupCount_setCount]
  exact ⟨Or.inr haxis, by rw [hbar]; exact inv.2⟩

lemma addChild_bar {counts : Counts} {nI nD nB : Nat} {c : VChild}
    (inv : CountsInv counts nI nD nB) (hT : c.hasType = true)
    (hR : c.role = some "bar") :
    CountsInv (addChild counts c) nI nD (nB + 1) := by
  have hax : getAxisType c = none := getAxisType_none_of_role (by rw [hR]; simp)
  have haxis : lookupCount (addChild counts c) (some "axis") =
      lookupCount counts (some "axis") :=
    addChild_lookup_other counts c hT (some "axis") (by rw [hR]; simp)
  have hbar : lookupCount (addChild counts c) (some "bar") =
      some (.plain (nB + 1)) := by
    rcases inv.2 with ⟨hl, hB0⟩ | ⟨hl, hB1⟩
    · subst hB0
      simp [addChild, hT, hR, hl, hax, countTruthy, lookupCount_setCount]
    · obtain ⟨m, rfl⟩ : ∃ m, nB = m + 1 := ⟨nB - 1, by omega⟩
      simp [addChild, hT, hR, hl, hax, countTruthy, lookupCount_setCount]
  exact ⟨by rw [haxis]; exact inv.1, Or.inr ⟨hbar, by omega⟩⟩

lemma addChild_other {counts : Counts} {nI nD nB : Nat} {c : VChild}
    (inv : CountsInv counts nI nD nB) (hT : c.hasType = true)
    (hA : c.role ≠ some "axis") (hB : c.role ≠ some "bar") :
    CountsInv (addChild counts c) nI nD nB :=
  ⟨by rw [addChild_lookup_other counts c hT (some "axis") hA]; exact inv.1,
   by rw [addChild_lookup_other counts c hT (some "bar") hB]; exact inv.2⟩

lemma foldl_selStep_char (cs : List VChild) :
    ∀ (counts : Counts) (out : List VChild) (warns : List (Option String))
      (nI nD nB : Nat), CountsInv counts nI nD nB →
    ∃ counts' warns',
      cs.foldl selStep (counts, out, warns) =
        (counts', out ++ keptFrom nI nD nB cs, warns') ∧
      CountsInv counts' (nI + (cs.filter (isAxisFor .independent)).length)
        (nD + (cs.filter (isAxisFor .dependent)).length)
        (nB + (cs.filter isBarChild).length) := by
  induction cs with
  | nil =>
    intro counts out warns nI nD nB inv
    exact ⟨counts, warns, by simp [keptFrom], by simpa using inv⟩
  | cons c cs ih =>
    intro counts out warns nI nD nB inv
    rw [List.foldl_cons]
    by_cases hT : c.hasType = true
    · cases hax : getAxisType c with
      | some k =>
        have hfb : isBarChild c = false := by
          obtain ⟨_, hR⟩ := getAxisType_eq_some hax
          simp [isBarChild, hR]
        cases k with
        | independent =>
          have hlim := limitReached_indep inv hax
          have hfa : isAxisFor AxisKey.independent c = true := by
            simp [isAxisFor, hax]
          have hfd : isAxisFor AxisKey.dependent c = false := by
            simp [isAxisFor, hax]
          have e2 : nD + ((c :: cs).filter (isAxisFor .dependent)).length
              = nD + (cs.filter (isAxisFor .dependent)).length := by
            simp [List.filter_cons, hfd]
          have e3 : nB + ((c :: cs).filter isBarChild).length
              = nB + (cs.filter isBarChild).length := by
            simp [List.filter_cons, hfb]
          have e1 : nI + ((c :: cs).filter (isAxisFor .independent)).length
              = nI + 1 + (cs.filter (isAxisFor .independent)).length := by
            simp [List.filter_cons, hfa]
            omega
          by_cases hnI : 1 ≤ nI
          · have hsel : selStep (counts, out, warns) c =
                (addChild counts c, out, warns ++ [c.role]) := by
              simp [selStep, hT, hlim, hnI]
            rw [hsel]
            obtain ⟨counts', warns', heq, hinv⟩ :=
              ih (addChild counts c) out (warns ++ [c.role]) (nI + 1) nD nB
                (addChild_indep inv hax)
            refine ⟨counts', warns', ?_, ?_⟩
            · rw [heq]
              simp [keptFrom, hT, hax, hnI]
            · rw [e1, e2, e3]
              exact hinv
          · have hsel : selStep (counts, out, warns) c =
                (addChild counts c, out ++ [c], warns) := by
              simp [selStep, hT, hlim, hnI]
            rw [hsel]
            obtain ⟨counts', warns', heq, hinv⟩ :=
              ih (addChild counts c) (out ++ [c]) warns (nI + 1) nD nB
                (addChild_indep inv hax)
            refine ⟨counts', warns', ?_, ?_⟩
            · rw [heq]
              simp [keptFrom, hT, hax, hnI]
            · rw [e1, e2, e3]
              exact hinv
        | dependent =>
          have hlim := limitReached_dep inv hax
          have hfa : isAxisFor AxisKey.independent c = false := by
            simp [isAxisFor, hax]
          have hfd : isAxisFor AxisKey.dependent c = true := by
            simp [isAxisFor, hax]
          have e1 : nI + ((c :: cs).filter (isAxisFor .independent)).length
              = nI + (cs.filter (isAxisFor .independent)).length := by
            simp [List.filter_cons, hfa]
          have e3 : nB + ((c :: cs).filter isBarChild).length
              = nB + (cs.filter isBarChild).length := by
            simp [List.filter_cons, hfb]
          have e2 : nD + ((c :: cs).filter (isAxisFor .dependent)).length
              = nD + 1 + (cs.filter (isAxisFor .dependent)).length := by
            simp [List.filter_cons, hfd]
            omega
          by_cases hnD : 1 ≤ nD
          · have hsel : selStep (counts, out, warns) c =
                (addChild counts c, out, warns ++ [c.role]) := by
              simp [selStep, hT, hlim, hnD]
            rw [hsel]
            obtain ⟨counts', warns', heq, hinv⟩ :=
              ih (addChild counts c) out (warns ++ [c.role]) nI (nD + 1) nB
                (addChild_dep inv hax)
            refine ⟨counts', warns', ?_, ?_⟩
            · rw [heq]
              simp [keptFrom, hT, hax, hnD]
            · rw [e1, e2, e3]
              exact hinv
          · have hsel : selStep (counts, out, warns) c =
                (addChild counts c, out ++ [c], warns) := by
              simp [selStep, hT, hlim, hnD]
            rw [hsel]
            obtain ⟨counts', warns', heq, hinv⟩ :=
              ih (addChild counts c) (out ++ [c]) warns nI (nD + 1) nB
                (addChild_dep inv hax)
            refine ⟨counts', warns', ?_, ?_⟩
            · rw [heq]
              simp [keptFrom, hT, hax, hnD]
            · rw [e1, e2, e3]
              exact hinv
      | none =>
        have hfa : isAxisFor AxisKey.independent c = false := by
          simp [isAxisFor, hax]
        have hfd : isAxisFor AxisKey.dependent c = false := by
          simp [isAxisFor, hax]
        have e1 : nI + ((c :: cs).filter (isAxisFor .independent)).length
            = nI + (cs.filter (isAxisFor .independent)).length := by
          simp [List.filter_cons, hfa]
        have e2 : nD + ((c :: cs).filter (isAxisFor .dependent)).length
            = nD + (cs.filter (isAxisFor .dependent)).length := by
          simp [List.filter_cons, hfd]
        by_cases hrole : c.role = some "bar"
        · have hlim := limitReached_bar inv hT hrole
          have hfb : isBarChild c = true := by simp [isBarChild, hT, hrole]
          have e3 : nB + ((c :: cs).filter isBarChild).length
              = nB + 1 + (cs.filter isBarChild).length := by
            simp [List.filter_cons, hfb]
            omega
          by_cases hnB : 1 ≤ nB
          · have hsel : selStep (counts, out, warns) c =
                (addChild counts c, out, warns ++ [c.role]) := by
              simp [selStep, hT, hlim, hnB]
            rw [hsel]
            obtain ⟨counts', warns', heq, hinv⟩ :=
              ih (addChild counts c) out (warns ++ [c.role]) nI nD (nB + 1)
                (addChild_bar inv hT hrole)
            refine ⟨counts', warns', ?_, ?_⟩
            · rw [heq]
              simp [keptFrom, hT, hax, hrole, hnB]
            · rw [e1, e2, e3]
              exact hinv
          · have hsel : selStep (counts, out, warns) c =
                (addChild counts c, out ++ [c], warns) := by
              simp [selStep, hT, hlim, hnB]
            rw [hsel]
            obtain ⟨counts', warns', heq, hinv⟩ :=
              ih (addChild counts c) (out ++ [c]) warns nI nD (nB + 1)
                (addChild_bar inv hT hrole)
            refine ⟨counts', warns', ?_, ?_⟩
            · rw [heq]
              simp [keptFrom, hT, hax, hrole, hnB]
            · rw [e1, e2, e3]
              exact hinv
        · have hA : c.role ≠ some "axis" := by
            intro h
            rw [getAxisType, if_pos (by simp [hT, h])] at hax
            cases hax
          have hlim := limitReached_other counts hT hA hrole
          have hfb : isBarChild c = false := by simp [isBarChild, hrole]
          have e3 : nB + ((c :: cs).filter isBarChild).length
              = nB + (cs.filter isBarChild).length := by
            simp [List.filter_cons, hfb]
          have hsel : selStep (counts, out, warns) c =
              (addChild counts c, out ++ [c], warns) := by
            simp [selStep, hT, hlim]
          rw [hsel]
          obtain ⟨counts', warns', heq, hinv⟩ :=
            ih (addChild counts c) (out ++ [c]) warns nI nD nB
              (addChild_other inv hT hA hrole)
          refine ⟨counts', warns', ?_, ?_⟩
          · rw [heq]
            simp [keptFrom, hT, hax, hrole]
          · rw [e1, e2, e3]
            exact hinv
    · have hT' : c.hasType = false := by
        revert hT
        cases c.hasType <;> simp
      have hax : getAxisType c = none := by simp [getAxisType, hT']
      have hsel : selStep (counts, out, warns) c = (counts, out, warns) := by
        simp [selStep, hT']
      rw [hsel]
      obtain ⟨counts', warns', heq, hinv⟩ := ih counts out warns nI nD nB inv
      refine ⟨counts', warns', ?_, ?_⟩
      · rw [heq]
        simp [keptFrom, hT']
      · have hfa : isAxisFor AxisKey.independent c = false := by
          simp [isAxisFor, hax]
        have hfd : isAxisFor AxisKey.dependent c = false := by
          simp [isAxisFor, hax]
        have hfb : isBarChild c = false := by simp [isBarChild, hT']
        have e1 : nI + ((c :: cs).filter (isAxisFor .independent)).length
            = nI + (cs.filter (isAxisFor .independent)).length := by
          simp [List.filter_cons, hfa]
        have e2 : nD + ((c :: cs).filter (isAxisFor .dependent)).length
            = nD + (cs.filter (isAxisFor .dependent)).length := by
          simp [List.filter_cons, hfd]
        have e3 : nB + ((c :: cs).filter isBarChild).length
            = nB + (cs.filter isBarChild).length := by
          simp [List.filter_cons, hfb]
        rw [e1, e2, e3]
        exact hinv

lemma keptFrom_filter_indep (cs : List VChild) :
    ∀ nI nD nB, (keptFrom nI nD nB cs).filter (isAxisFor .independent) =
      if 1 ≤ nI then [] else (cs.filter (isAxisFor .independent)).take 1 := by
  induction cs with
  | nil => intro nI nD nB; simp [keptFrom]
  | cons c cs ih =>
    intro nI nD nB
    by_cases hT : c.hasType = true
    · cases hax : getAxisType c with
      | some k =>
        cases k with
        | independent =>
          have hfa : isAxisFor AxisKey.independent c = true := by
            simp [isAxisFor, hax]
          by_cases hnI : 1 ≤ nI
          · simp [keptFrom, hT, hax, hnI, ih, List.filter_cons, hfa]
          · simp [keptFrom, hT, hax, hnI, ih, List.filter_cons, hfa]
        | dependent =>
          have hfa : isAxisFor AxisKey.independent c = false := by
            simp [isAxisFor, hax]
          by_cases hnD : 1 ≤ nD
          · simp [keptFrom, hT, hax, hnD, ih, List.filter_cons, hfa]
          · simp [keptFrom, hT, hax, hnD, ih, List.filter_cons, hfa]
      | none =>
        have hfa : isAxisFor AxisKey.independent c = false := by
          simp [isAxisFor, hax]
        by_cases hrole : c.role = some "bar"
        · by_cases hnB : 1 ≤ nB
          · simp [keptFrom, hT, hax, hrole, hnB, ih, List.filter_cons, hfa]
          · simp [keptFrom, hT, hax, hrole, hnB, ih, List.filter_cons, hfa]
        · simp [keptFrom, hT, hax, hrole, ih, List.filter_cons, hfa]
    · have hT' : c.hasType = false := by
        revert hT; cases c.hasType <;> simp
      have hfa : isAxisFor AxisKey.independent c = false := by
        simp [isAxisFor, getAxisType, hT']
      simp [keptFrom, hT', ih, List.filter_cons, hfa]

lemma keptFrom_filter_dep (cs : List VChild) :
    ∀ nI nD nB, (keptFrom nI nD nB cs).filter (isAxisFor .dependent) =
      if 1 ≤ nD then [] else (cs.filter (isAxisFor .dependent)).take 1 := by
  induction cs with
  | nil => intro nI nD nB; simp [keptFrom]
  | cons c cs ih =>
    intro nI nD nB
    by_cases hT : c.hasType = true
    · cases hax : getAxisType c with
      | some k =>
        cases k with
        | independent =>
          have hfa : isAxisFor AxisKey.dependent c = false := by
            simp [isAxisFor, hax]
          by_cases hnI : 1 ≤ nI
          · simp [keptFrom, hT, hax, hnI, ih, List.filter_cons, hfa]
          · simp [keptFrom, hT, hax, hnI, ih, List.filter_cons, hfa]
        | dependent =>
          have hfa : isAxisFor AxisKey.dependent c = true := by
            simp [isAxisFor, hax]
          by_cases hnD : 1 ≤ nD
          · simp [keptFrom, hT, hax, hnD, ih, List.filter_cons, hfa]
          · simp [keptFrom, hT, hax, hnD, ih, List.filter_cons, hfa]
      | none =>
        have hfa : isAxisFor AxisKey.dependent c = false := by
          simp [isAxisFor, hax]
        by_cases hrole : c.role = some "bar"
        · by_cases hnB : 1 ≤ nB
          · simp [keptFrom, hT, hax, hrole, hnB, ih, List.filter_cons, hfa]
          · simp [keptFrom, hT, hax, hrole, hnB, ih, List.filter_cons, hfa]
        · simp [keptFrom, hT, hax, hrole, ih, List.filter_cons, hfa]
    · have hT' : c.hasType = false := by
        revert hT; cases c.hasType <;> simp
      have hfa : isAxisFor AxisKey.dependent c = false := by
        simp [isAxisFor, getAxisType, hT']
      simp [keptFrom, hT', ih, List.filter_cons, hfa]

lemma keptFrom_filter_bar (cs : List VChild) :
    ∀ nI nD nB, (keptFrom nI nD nB cs).filter isBarChild =
      if 1 ≤ nB then [] else (cs.filter isBarChild).take 1 := by
  induction cs with
  | nil => intro nI nD nB; simp [keptFrom]
  | cons c cs ih =>
    intro nI nD nB
    by_cases hT : c.hasType = true
    · cases hax : getAxisType c with
      | some k =>
        have hfb : isBarChild c = false := by
          obtain ⟨_, hR⟩ := getAxisType_eq_some hax
          simp [isBarChild, hR]
        cases k with
        | independent =>
          by_cases hnI : 1 ≤ nI
          · simp [keptFrom, hT, hax, hnI, ih, List.filter_cons, hfb]
          · simp [keptFrom, hT, hax, hnI, ih, List.filter_cons, hfb]
        | dependent =>
          by_cases hnD : 1 ≤ nD
          · simp [keptFrom, hT, hax, hnD, ih, List.filter_cons, hfb]
          · simp [keptFrom, hT, hax, hnD, ih, List.filter_cons, hfb]
      | none =>
        by_cases hrole : c.role = some "bar"
        · have hfb : isBarChild c = true := by simp [isBarChild, hT, hrole]
          by_cases hnB : 1 ≤ nB
          · simp [keptFrom, hT, hax, hrole, hnB, ih, List.filter_cons, hfb]
          · simp [keptFrom, hT, hax, hrole, hnB, ih, List.filter_cons, hfb]
        · have hfb : isBarChild c = false := by simp [isBarChild, hrole]
          simp [keptFrom, hT, hax, hrole, ih, List.filter_cons, hfb]
    · have hT' : c.hasType = false := by
        revert hT; cases c.hasType <;> simp
      have hfb : isBarChild c = false := by simp [isBarChild, hT']
      simp [keptFrom, hT', ih, List.filter_cons, hfb]

lemma keptFrom_filter_other (p : VChild → Bool)
    (hp : ∀ c, p c = true →
      c.hasType = true ∧ getAxisType c = none ∧ c.role ≠ some "bar")
    (cs : List VChild) :
    ∀ nI nD nB, (keptFrom nI nD nB cs).filter p = cs.filter p := by
  induction cs with
  | nil => intro nI nD nB; simp [keptFrom]
  | cons c cs ih =>
    intro nI nD nB
    by_cases hT : c.hasType = true
    · cases hax : getAxisType c with
      | some k =>
        have hfp : p c = false := by
          cases hpc : p c with
          | false => rfl
          | true =>
            obtain ⟨_, hax', _⟩ := hp c hpc
            rw [hax'] at hax
            cases hax
        cases k with
        | independent =>
          by_cases hnI : 1 ≤ nI
          · simp [keptFrom, hT, hax, hnI, ih, List.filter_cons, hfp]
          · simp [keptFrom, hT, hax, hnI, ih, List.filter_cons, hfp]
        | dependent =>
          by_cases hnD : 1 ≤ nD
          · simp [keptFrom, hT, hax, hnD, ih, List.filter_cons, hfp]
          · simp [keptFrom, hT, hax, hnD, ih, List.filter_cons, hfp]
      | none =>
        by_cases hrole : c.role = some "bar"
        · have hfp : p c = false := by
            cases hpc : p c with
            | false => rfl
            | true => exact absurd hrole (hp c hpc).2.2
          by_cases hnB : 1 ≤ nB
          · simp [keptFrom, hT, hax, hrole, hnB, ih, List.filter_cons, hfp]
          · simp [keptFrom, hT, hax, hrole, hnB, ih, List.filter_cons, hfp]
        · simp [keptFrom, hT, hax, hrole, ih, List.filter_cons]
    · have hT' : c.hasType = false := by
        revert hT; cases c.hasType <;> simp
      have hfp : p c = false := by
        cases hpc : p c with
        | false => rfl
        | true =>
          have := (hp c hpc).1
          rw [hT'] at this
          cases this
      simp [keptFrom, hT', ih, List.filter_cons, hfp]

lemma getChildComponents_eq (cs : List VChild) (ds : VChild × VChild) :
    getChildComponents cs ds =
      keptFrom 0 0 0 cs
        ++ (if (cs.filter (isAxisFor .independent)).length = 0 then [ds.1] else [])
        ++ (if (cs.filter (isAxisFor .dependent)).length = 0 then [ds.2] else []) := by
  have inv0 : CountsInv [] 0 0 0 :=
    ⟨Or.inl ⟨rfl, rfl, rfl⟩, Or.inl ⟨rfl, rfl⟩⟩
  obtain ⟨counts', warns', heq, hinv⟩ := foldl_selStep_char cs [] [] [] 0 0 0 inv0
  have hI : totalCount counts' (some "axis") (some .independent) =
      (cs.filter (isAxisFor .independent)).length := by
    rcases hinv.1 with ⟨hl, hI0, _⟩ | hl
    · simp only [totalCount, hl]
      omega
    · simp only [totalCount, hl]
      omega
  have hD : totalCount counts' (some "axis") (some .dependent) =
      (cs.filter (isAxisFor .dependent)).length := by
    rcases hinv.1 with ⟨hl, _, hD0⟩ | hl
    · simp only [totalCount, hl]
      omega
    · simp only [totalCount, hl]
      omega
  by_cases h1 : (cs.filter (isAxisFor .independent)).length = 0 <;>
    by_cases h2 : (cs.filter (isAxisFor .dependent)).length = 0 <;>
      simp [getChildComponents, getChildComponentsW, heq, hI, hD, h1, h2,
        Nat.lt_one_iff, Nat.pos_of_ne_zero, List.append_assoc]

lemma take_one_append {α : Type} (l r : List α) (h : l ≠ []) :
    (l ++ r).take 1 = l.take 1 := by
  cases l with
  | nil => exact absurd rfl h
  | cons x xs => simp

/-- C3: the list returned by getChildComponents contains exactly one axis
child per axis key (the first declared one if any, else the injected
default for that key), at most one bar-role child (the first declared
one), and every other typed child without limit. -/
theorem claimC3_child_selection (cs : List VChild) (dI dD : VChild)
    (hI : getAxisType dI = some .independent)
    (hD : getAxisType dD = some .dependent) :
    (getChildComponents cs (dI, dD)).filter (isAxisFor .independent) =
      (cs.filter (isAxisFor .independent) ++ [dI]).take 1 ∧
    (getChildComponents cs (dI, dD)).filter (isAxisFor .dependent) =
      (cs.filter (isAxisFor .dependent) ++ [dD]).take 1 ∧
    ((getChildComponents cs (dI, dD)).filter (isAxisFor .independent)).length = 1 ∧
    ((getChildComponents cs (dI, dD)).filter (isAxisFor .dependent)).length = 1 ∧
    (getChildComponents cs (dI, dD)).filter isBarChild =
      (cs.filter isBarChild).take 1 ∧
    ((getChildComponents cs (dI, dD)).filter isBarChild).length ≤ 1 ∧
    (getChildComponents cs (dI, dD)).filter isOtherChild = cs.filter isOtherChild := by
  obtain ⟨hTI, hRI⟩ := getAxisType_eq_some hI
  obtain ⟨hTD, hRD⟩ := getAxisType_eq_some hD
  have fII : isAxisFor AxisKey.independent dI = true := by simp [isAxisFor, hI]
  have fID : isAxisFor AxisKey.dependent dI = false := by simp [isAxisFor, hI]
  have fDI : isAxisFor AxisKey.independent dD = false := by simp [isAxisFor, hD]
  have fDD : isAxisFor AxisKey.dependent dD = true := by simp [isAxisFor, hD]
  have fBI : isBarChild dI = false := by simp [isBarChild, hRI]
  have fBD : isBarChild dD = false := by simp [isBarChild, hRD]
  have fOI : isOtherChild dI = false := by simp [isOtherChild, hRI]
  have fOD : isOtherChild dD = false := by simp [isOtherChild, hRD]
  have hpO : ∀ x : VChild, isOtherChild x = true →
      x.hasType = true ∧ getAxisType x = none ∧ x.role ≠ some "bar" := by
    intro x hx
    simp only [isOtherChild, Bool.and_eq_true, Bool.not_eq_true', beq_eq_false_iff_ne]
      at hx
    exact ⟨hx.1.1, getAxisType_none_of_role hx.1.2, hx.2⟩
  have hkI := keptFrom_filter_indep cs 0 0 0
  rw [if_neg (by omega)] at hkI
  have hkD := keptFrom_filter_dep cs 0 0 0
  rw [if_neg (by omega)] at hkD
  have hkB := keptFrom_filter_bar cs 0 0 0
  rw [if_neg (by omega)] at hkB
  have hkO := keptFrom_filter_other isOtherChild hpO cs 0 0 0
  rw [getChildComponents_eq]
  have goal1 : ((keptFrom 0 0 0 cs
      ++ (if (cs.filter (isAxisFor .independent)).length = 0 then [dI] else [])
      ++ (if (cs.filter (isAxisFor .dependent)).length = 0 then [dD] else []))).filter
        (isAxisFor .independent) =
      (cs.filter (isAxisFor .independent) ++ [dI]).take 1 := by
    rw [List.filter_append, List.filter_append, hkI]
    by_cases h1 : (cs.filter (isAxisFor .independent)).length = 0
    · rw [List.length_eq_zero.mp h1]
      simp [h1, fII, fDI]
    · have hne : cs.filter (isAxisFor .independent) ≠ [] :=
        fun h => h1 (by rw [h]; rfl)
      rw [take_one_append _ _ hne]
      simp [h1, fII, fDI]
  have goal2 : ((keptFrom 0 0 0 cs
      ++ (if (cs.filter (isAxisFor .independent)).length = 0 then [dI] else [])
      ++ (if (cs.filter (isAxisFor .dependent)).length = 0 then [dD] else []))).filter
        (isAxisFor .dependent) =
      (cs.filter (isAxisFor .dependent) ++ [dD]).take 1 := by
    rw [List.filter_append, List.filter_append, hkD]
    by_cases h2 : (cs.filter (isAxisFor .dependent)).length = 0
    · rw [List.length_eq_zero.mp h2]
      simp [h2, fID, fDD]
    · have hne : cs.filter (isAxisFor .dependent) ≠ [] :=
        fun h => h2 (by rw [h]; rfl)
      rw [take_one_append _ _ hne]
      simp [h2, fID, fDD]
  have goal5 : ((keptFrom 0 0 0 cs
      ++ (if (cs.filter (isAxisFor .independent)).length = 0 then [dI] else [])
      ++ (if (cs.filter (isAxisFor .dependent)).length = 0 then [dD] else []))).filter
        isBarChild = (cs.filter isBarChild).take 1 := by
    rw [List.filter_append, List.filter_append, hkB]
    simp [fBI, fBD]
  refine ⟨goal1, goal2, ?_, ?_, goal5, ?_, ?_⟩
  · rw [goal1]
    simp [List.length_take, List.length_append]
  · rw [goal2]
    simp [List.length_take, List.length_append]
  · rw [goal5]
    simp [List.length_take]
  · rw [List.filter_append, List.filter_append, hkO]
    simp [fOI, fOD]

/-- A default independent axis child used in concrete instances. -/
def defAxisIndep : VChild :=
  { hasType := true, role := some "axis", dependentAxis := false,
    categories := none, id := 101 }

/-- A default dependent axis child used in concrete instances. -/
def defAxisDep : VChild :=
  { hasType := true, role := some "axis", dependentAxis := true,
    categories := none, id := 102 }

/-- A child carrying a type but no role. -/
def noRoleChild : VChild :=
  { hasType := true, role := none, dependentAxis := false,
    categories := none, id := 7 }

/-- A child with no type at all. -/
def noTypeChild : VChild :=
  { hasType := false, role := none, dependentAxis := false,
    categories := none, id := 8 }

/-- A concrete child list exercising every limit: two bars, a line, two
independent axes. -/
def c3exampleChildren : List VChild :=
  [{ hasType := true, role := some "bar", dependentAxis := false,
     categories := none, id := 20 },
   { hasType := true, role := some "line", dependentAxis := false,
     categories := none, id := 21 },
   { hasType := true, role := some "axis", dependentAxis := false,
     categories := none, id := 22 },
   { hasType := true, role := some "bar", dependentAxis := false,
     categories := none, id := 23 },
   { hasType := true, role := some "axis", dependentAxis := false,
     categories := none, id := 24 }]

/-- Witness for C3 on the concrete child list. -/
theorem claimC3_child_selection_witness :
    (getChildComponents c3exampleChildren (defAxisIndep, defAxisDep)).filter
        (isAxisFor .independent) =
      (c3exampleChildren.filter (isAxisFor .independent) ++ [defAxisIndep]).take 1 ∧
    (getChildComponents c3exampleChildren (defAxisIndep, defAxisDep)).filter
        (isAxisFor .dependent) =
      (c3exampleChildren.filter (isAxisFor .dependent) ++ [defAxisDep]).take 1 ∧
    ((getChildComponents c3exampleChildren (defAxisIndep, defAxisDep)).filter
        (isAxisFor .independent)).length = 1 ∧
    ((getChildComponents c3exampleChildren (defAxisIndep, defAxisDep)).filter
        (isAxisFor .dependent)).length = 1 ∧
    (getChildComponents c3exampleChildren (defAxisIndep, defAxisDep)).filter
        isBarChild = (c3exampleChildren.filter isBarChild).take 1 ∧
    ((getChildComponents c3exampleChildren (defAxisIndep, defAxisDep)).filter
        isBarChild).length ≤ 1 ∧
    (getChildComponents c3exampleChildren (defAxisIndep, defAxisDep)).filter
        isOtherChild = c3exampleChildren.filter isOtherChild :=
  claimC3_child_selection c3exampleChildren defAxisIndep defAxisDep
    (by decide) (by decide)

/-- C8: the claim says a child with no role or no type is skipped entirely
(not included in the output); the code only skips children with no type,
and a child carrying a type but no role is pushed into the output. -/
theorem claimC8_counterexample_no_role_included :
    noRoleChild ∈ getChildComponents [noRoleChild] (defAxisIndep, defAxisDep) := by
  decide

/-- C8 as amended: a child with no type is skipped entirely, leaving the
output, the counts and the warnings exactly as if it were absent; a child
with a type but no role is included in the output without limit (and
without warning), counted under the undefined role slot. -/
theorem claimC8_no_type_skipped_amended (xs ys : List VChild) (c : VChild)
    (d : VChild × VChild) (hc : c.hasType = false)
    (hI : getAxisType d.1 = some .independent)
    (hD : getAxisType d.2 = some .dependent) :
    getChildComponentsW (xs ++ c :: ys) d = getChildComponentsW (xs ++ ys) d ∧
    ∀ cs, (getChildComponents cs d).filter (fun x => x.hasType && x.role.isNone) =
      cs.filter (fun x => x.hasType && x.role.isNone) := by
  constructor
  · have hstep : ∀ st, selStep st c = st := fun st => by simp [selStep, hc]
    unfold getChildComponentsW
    rw [List.foldl_append, List.foldl_cons, hstep, ← List.foldl_append]
  · intro cs
    rw [getChildComponents_eq]
    have hp : ∀ x : VChild, (x.hasType && x.role.isNone) = true →
        x.hasType = true ∧ getAxisType x = none ∧ x.role ≠ some "bar" := by
      intro x hx
      have h1 := (Bool.and_eq_true _ _).mp hx
      have hrole : x.role = none := Option.isNone_iff_eq_none.mp h1.2
      refine ⟨h1.1, getAxisType_none_of_role ?_, ?_⟩
      · rw [hrole]; simp
      · rw [hrole]; simp
    rw [List.filter_append, List.filter_append,
      keptFrom_filter_other _ hp cs 0 0 0]
    obtain ⟨hT1, hR1⟩ := getAxisType_eq_some hI
    obtain ⟨hT2, hR2⟩ := getAxisType_eq_some hD
    have f1 : (d.1.hasType && d.1.role.isNone) = false := by simp [hR1]
    have f2 : (d.2.hasType && d.2.role.isNone) = false := by simp [hR2]
    simp [f1, f2]
    exact ⟨fun _ _ => by rw [hR1]; simp, fun _ _ => by rw [hR2]; simp⟩

/-- Witness for the amended C8: inserting a child with no type changes
nothing, and a typed role-less child passes the inclusion filter. -/
theorem claimC8_no_type_skipped_amended_witness :
    getChildComponentsW ([defAxisIndep] ++ noTypeChild :: [])
        (defAxisIndep, defAxisDep) =
      getChildComponentsW ([defAxisIndep] ++ []) (defAxisIndep, defAxisDep) ∧
    (getChildComponents [noRoleChild] (defAxisIndep, defAxisDep)).filter
        (fun x => x.hasType && x.role.isNone) =
      ([noRoleChild] : List VChild).filter (fun x => x.hasType && x.role.isNone) := by
  have h := claimC8_no_type_skipped_amended [defAxisIndep] [] noTypeChild
    (defAxisIndep, defAxisDep) rfl (by decide) (by decide)
  exact ⟨h.1, h.2 [noRoleChild]⟩

/- ----------------------------------------------------------------------
   The full pipeline (default export of helper-methods.js)
   ---------------------------------------------------------------------- -/

/-- All inputs consumed by one invocation of the module's operations:
children and defaults, the domain prop and child reports with the padding
and orientation collaborators, the candidate-string sources, tick values,
category ticks, StringMap and scale tick format, and the offset inputs. -/
structure PipelineInput where
  children : List VChild
  defaults : VChild × VChild
  domainProp : Option DomainProp
  axisKey : AxisKey
  reports : List (Option (List ℚ))
  padFn : List ℚ → List ℚ
  orientFn : List ℚ → List ℚ
  tickStrings : List String
  categoryStrings : List (Option (List String))
  dataStrings : List (Option (List String))
  tickValues : Option (List JSVal)
  tickCategories : Option (List JSVal)
  stringMap : Option StringMap
  scaleTickFormat : Option (JSVal → JSVal)
  width : ℚ
  height : ℚ
  domainX : ℚ × ℚ
  domainY : ℚ × ℚ
  axisX : AxisComp
  axisY : AxisComp
  scaleX : ℚ → ℚ
  scaleY : ℚ → ℚ

/-- One invocation of every operation of the module on the given inputs:
the selected children with warnings, the resolved domain, the StringMap,
the ticks, the tick formatter, the categories, and the axis offsets. -/
def fullPipeline (inp : PipelineInput) :=
  (getChildComponentsW inp.children inp.defaults,
   getDomain inp.padFn inp.orientFn inp.domainProp inp.axisKey inp.reports,
   createStringMap inp.tickStrings inp.categoryStrings inp.dataStrings,
   getTicks inp.tickValues inp.tickCategories inp.stringMap,
   getTickFormat inp.tickValues inp.stringMap inp.scaleTickFormat,
   getCategories inp.children,
   getAxisOffset inp.width inp.height inp.domainX inp.domainY inp.axisX
     inp.axisY inp.scaleX inp.scaleY)

/-- C9: every operation of the module is deterministic: the embedding is a
pure function of the pipeline inputs (all counters, maps and accumulated
lists in the source are local to one call), so two invocations on
identical inputs return identical outputs. -/
theorem claimC9_pipeline_deterministic (inp inp' : PipelineInput)
    (h : inp = inp') :
    fullPipeline inp = fullPipeline inp' ∧ fullPipeline inp = fullPipeline inp := by
  subst h
  exact ⟨rfl, rfl⟩

/-- A concrete pipeline input. -/
def c9input : PipelineInput :=
  { children := [noRoleChild],
    defaults := (defAxisIndep, defAxisDep),
    domainProp := none,
    axisKey := .independent,
    reports := [some [0, 1]],
    padFn := fun l => l,
    orientFn := fun l => l,
    tickStrings := ["a"],
    categoryStrings := [],
    dataStrings := [],
    tickValues := none,
    tickCategories := none,
    stringMap := some [("a", 1)],
    scaleTickFormat := none,
    width := 400,
    height := 300,
    domainX := (0, 1),
    domainY := (0, 1),
    axisX := { orientation := none, offsetX := none, offsetY := none },
    axisY := { orientation := none, offsetX := none, offsetY := none },
    scaleX := fun q => q,
    scaleY := fun q => q }

/-- Witness for C9 at the concrete pipeline input. -/
theorem claimC9_pipeline_deterministic_witness :
    fullPipeline c9input = fullPipeline c9input :=
  (claimC9_pipeline_deterministic c9input c9input rfl).1
